import Mathlib

/-!
Shallow embedding of the Korean word indexing pipeline
(`initial_test.py`): choseong extraction, word validators, the
English-word regex scan, per-sentence morphological word extraction, and
the fetch/extract/aggregate/write pipeline of `OpenSearchWordIndexer`.

Python strings are modelled as Lean `String` (a list of unicode scalar
values, compared by code point, matching Python semantics), machine
integers do not occur, and code that can raise is modelled with
`Except Unit`.
-/

/-- Code point of a character, as Python `ord`. -/
def pyOrd (c : Char) : Nat := c.toNat

/-- ASCII upper-case letter, code points 65 to 90. -/
def isAsciiUpper (c : Char) : Bool := 65 ≤ c.toNat ∧ c.toNat ≤ 90

/-- ASCII lower-case letter, code points 97 to 122. -/
def isAsciiLower (c : Char) : Bool := 97 ≤ c.toNat ∧ c.toNat ≤ 122

/-- ASCII letter, the regex class a-zA-Z. -/
def isAsciiLetter (c : Char) : Bool := isAsciiUpper c || isAsciiLower c

/-- Hangul syllable block, the inclusive code point range U+AC00 to U+D7A3;
this is both the Python comparison chain on the chars for GA and HIH used in
`extract_choseong` and the regex character class covering that range used by
the validators. -/
def isHangulSyllable (c : Char) : Bool := 0xAC00 ≤ c.toNat ∧ c.toNat ≤ 0xD7A3

/-- Python `str.isalpha` on one character. The real predicate consults the
Unicode database; it is modelled here on the character ranges this program
meets: ASCII letters, Hangul jamo (U+1100 to U+11FF), Hangul compatibility
jamo (U+3131 to U+318E) and Hangul syllables (U+AC00 to U+D7A3). Every other
character is treated as non-alphabetic. -/
def pyIsAlphaChar (c : Char) : Bool :=
  isAsciiLetter c
    || (0x1100 ≤ c.toNat && c.toNat ≤ 0x11FF)
    || (0x3131 ≤ c.toNat && c.toNat ≤ 0x318E)
    || (0xAC00 ≤ c.toNat && c.toNat ≤ 0xD7A3)

/-- Python `str.isalpha`: the string is non-empty and every character is
alphabetic. -/
def pyStrIsAlpha (s : String) : Bool := !s.data.isEmpty && s.data.all pyIsAlphaChar

/-- Python `str.isascii`: every code point is below 128. -/
def pyStrIsAscii (s : String) : Bool := s.data.all (fun c => c.toNat ≤ 127)

/-- Python `str.lower` on one character. The real function consults the
Unicode database; in this program it is only ever applied to ASCII strings
(the all-ASCII branch of `extract_choseong` and the regex-extracted English
words), so the ASCII case mapping suffices. -/
def pyLowerChar (c : Char) : Char :=
  if isAsciiUpper c then Char.ofNat (c.toNat + 32) else c

/-- Python `str.lower` on a string. -/
def pyLower (s : String) : String := String.mk (s.data.map pyLowerChar)

/-- Python whitespace for `str.strip`: space, tab, newline, carriage return,
vertical tab and form feed (Unicode spaces beyond ASCII are not modelled). -/
def pyIsSpaceChar (c : Char) : Bool := c.toNat = 32 || (9 ≤ c.toNat && c.toNat ≤ 13)

/-- Python `\w` (unicode word character) restricted to the modelled ranges:
alphabetic, ASCII digit, or underscore. Used for the regex word boundary. -/
def pyIsWordChar (c : Char) : Bool :=
  pyIsAlphaChar c || (48 ≤ c.toNat && c.toNat ≤ 57) || c = '_'

/-- The fixed ordered list of 19 Korean initial consonant symbols, the local
`choseong_list` of `KoreanChoseongExtractor.extract_choseong`. -/
def choseong_list : List Char :=
  ['ㄱ', 'ㄲ', 'ㄴ', 'ㄷ', 'ㄸ', 'ㄹ', 'ㅁ', 'ㅂ', 'ㅃ', 'ㅅ',
   'ㅆ', 'ㅇ', 'ㅈ', 'ㅉ', 'ㅊ', 'ㅋ', 'ㅌ', 'ㅍ', 'ㅎ']

/-- Per-character body of the loop in `extract_choseong`: a character in the
Hangul syllable range is replaced by the initial consonant at index
(codepoint - 44032) div 588; both nested range checks of the source are kept
(the inner one repeats the outer one numerically, so its else branch is
dead). The guard keeps the index at most 18, so the `getD` default is never
used (the Python list indexing cannot raise here). -/
def choseongOfChar (c : Char) : Char :=
  if 0xAC00 ≤ c.toNat ∧ c.toNat ≤ 0xD7A3 then
    if 44032 ≤ c.toNat ∧ c.toNat ≤ 55203 then
      choseong_list.getD ((c.toNat - 44032) / 588) c
    else c
  else c

/-- `KoreanChoseongExtractor.extract_choseong`: empty string maps to the
empty string; a non-empty all-ASCII-alphabetic string is lower-cased; any
other string is mapped character by character through `choseongOfChar`. -/
def extract_choseong (text : String) : String :=
  if text = "" then ""
  else if pyStrIsAlpha text && pyStrIsAscii text then pyLower text
  else String.mk (text.data.map choseongOfChar)

/-- `KoreanMorphemeAnalyzer._is_valid_korean_word`: at least two characters,
contains a Hangul syllable, and is not made solely of characters outside the
class of Hangul syllables and ASCII letters (the regex full match against
the complemented class). -/
def is_valid_korean_word (word : String) : Bool :=
  if word = "" || word.length < 2 then false
  else if !(word.data.any isHangulSyllable) then false
  else if word.data.all (fun c => !(isHangulSyllable c || isAsciiLetter c)) then false
  else true

/-- `KoreanMorphemeAnalyzer._is_valid_english_word`: at least two
characters, `str.isalpha`, and at most 50 characters. -/
def is_valid_english_word (word : String) : Bool :=
  if word = "" || word.length < 2 then false
  else if !(pyStrIsAlpha word) then false
  else if word.length > 50 then false
  else true

lemma dropWhile_length_le {α : Type} (p : α → Bool) (l : List α) :
    (List.dropWhile p l).length ≤ l.length := by
  induction l with
  | nil => simp [List.dropWhile]
  | cons a l ih =>
    by_cases h : p a
    · simpa [List.dropWhile, h] using Nat.le_succ_of_le ih
    · simp [List.dropWhile, h]

/-- One scanning step of `re.findall` for the pattern of maximal ASCII
letter runs of length at least two between word boundaries
(`_extract_english_words`). `prev` is the character just before `cs` in the
sentence (`none` at the start). A maximal ASCII-letter run matches exactly
when it has length at least two and neither neighbour is a word character;
a failed run is skipped whole, because every restart position inside it has
an ASCII letter on its left and so fails the leading boundary. -/
def english_runs (prev : Option Char) (cs : List Char) : List (List Char) :=
  match cs with
  | [] => []
  | c :: rest =>
    if h : isAsciiLetter c then
      let run := List.takeWhile isAsciiLetter (c :: rest)
      let tail := List.dropWhile isAsciiLetter (c :: rest)
      let okLeft := match prev with
        | none => true
        | some p => !pyIsWordChar p
      let okRight := match tail with
        | [] => true
        | d :: _ => !pyIsWordChar d
      if decide (2 ≤ run.length) && okLeft && okRight then
        run :: english_runs (some (run.getLastD c)) tail
      else english_runs (some (run.getLastD c)) tail
    else english_runs (some c) rest
termination_by cs.length
decreasing_by
all_goals first
  | (simp only [List.dropWhile_cons_of_pos h, List.length_cons]
     exact Nat.lt_succ_of_le (dropWhile_length_le _ _))
  | simp

/-- `KoreanMorphemeAnalyzer._extract_english_words`: regex-scan the sentence
for ASCII-letter words of length at least two, keep those passing
`_is_valid_english_word`, and lower-case each kept word. -/
def extract_english_words (sentence : String) : List String :=
  (english_runs none sentence.data).filterMap (fun run =>
    let w := String.mk run
    if is_valid_english_word w then some (pyLower w) else none)

/-- The external morphological analyzer collaborator: given a sentence it
returns tagged (surface form, part of speech tag) pairs, or raises
(modelled as `Except.error`). -/
def Analyzer : Type := String → Except Unit (List (String × String))

/-- Part-of-speech filter test of `_extract_korean_words`: the Python
condition, pos_filter is None or pos is in pos_filter. -/
def posOk (pos_filter : Option (List String)) (pos : String) : Bool :=
  match pos_filter with
  | none => true
  | some filt => filt.contains pos

/-- `KoreanMorphemeAnalyzer._extract_korean_words` given the analyzer
output for the sentence: on an analyzer exception, log and return the empty
list; otherwise keep each surface form whose tag passes the filter and
which is a valid Korean word. -/
def extract_korean_words (morphs : Except Unit (List (String × String)))
    (pos_filter : Option (List String)) : List String :=
  match morphs with
  | Except.error _ => []
  | Except.ok ms =>
    ms.filterMap (fun p =>
      if posOk pos_filter p.2 && is_valid_korean_word p.1 then some p.1 else none)

/-- `KoreanMorphemeAnalyzer.extract_words_from_sentence`: a blank sentence
(empty, or stripped to empty) yields the empty list; otherwise the English
words and the Korean words are concatenated and deduplicated. The Python
code returns `list(set(words))` whose order is unspecified; it is modelled
as order-preserving deduplication. The enclosing try block only re-routes
analyzer failures, which `extract_korean_words` already absorbs. -/
def extract_words_from_sentence (analyzer : Analyzer) (sentence : String)
    (pos_filter : Option (List String)) : List String :=
  if sentence.data.all pyIsSpaceChar then []
  else
    (extract_english_words sentence
      ++ extract_korean_words (analyzer sentence) pos_filter).dedup

/-- One word record accumulated by
`OpenSearchWordIndexer.extract_words_from_index`: the dict with keys `word`
and `choseong`. A `source_sentence` key is never added by this program, but
the bulk writer checks for it, so it is carried as an optional field. -/
structure WordRecord where
  word : String
  choseong : String
  source_sentence : Option String
deriving Repr, DecidableEq

/-- A fetched source document, its `_source` dict restricted to the
configured sentence fields: association list from field name to value. -/
def Doc : Type := List (String × String)

/-- The records contributed by one fetched document: for each configured
field present in the document with a non-empty (truthy) value, extract the
words of that sentence and pair each with its choseong. -/
def docRecords (analyzer : Analyzer) (pos_filter : Option (List String))
    (sentence_fields : List String) (doc : Doc) : List WordRecord :=
  sentence_fields.flatMap (fun field =>
    match List.lookup field doc with
    | none => []
    | some sentence =>
      if sentence = "" then []
      else
        (extract_words_from_sentence analyzer sentence pos_filter).map
          (fun w => WordRecord.mk w (extract_choseong w) none))

/-- The while loop of `extract_words_from_index` over scroll pages. `hits`
is the current page; `scrolls` is the stream of outcomes of the successive
scroll calls (an exhausted stream behaves as a scroll returning no hits).
The loop stops on an empty page; records of all documents are appended in
order with no deduplication; a scroll exception is logged and breaks the
loop, keeping what was accumulated so far. -/
def collect_pages (analyzer : Analyzer) (pos_filter : Option (List String))
    (sentence_fields : List String) (hits : List Doc)
    (scrolls : List (Except Unit (List Doc))) : List WordRecord :=
  if hits.isEmpty then []
  else
    let ws := hits.flatMap (docRecords analyzer pos_filter sentence_fields)
    match scrolls with
    | [] => ws
    | Except.error _ :: _ => ws
    | Except.ok hits2 :: rest =>
      ws ++ collect_pages analyzer pos_filter sentence_fields hits2 rest
termination_by scrolls.length
decreasing_by simp

/-- `OpenSearchWordIndexer.extract_words_from_index`. The initial search
call either raises (the surrounding except block logs and re-raises) or
returns the first page; subsequent pages come from the scroll stream. -/
def extract_words_from_index (analyzer : Analyzer)
    (first_page : Except Unit (List Doc)) (scrolls : List (Except Unit (List Doc)))
    (sentence_fields : List String) (pos_filter : Option (List String)) :
    Except Unit (List WordRecord) :=
  match first_page with
  | Except.error e => Except.error e
  | Except.ok hits =>
    Except.ok (collect_pages analyzer pos_filter sentence_fields hits scrolls)

/-- One document of the bulk request body built by
`index_words_to_auto_search`; the preceding action line carries the same
word as `_id`, so the record is keyed by its word in the target. -/
structure BulkDoc where
  id : String
  word : String
  initial : String
  source_sentence : Option String
deriving Repr, DecidableEq

/-- `OpenSearchWordIndexer.index_words_to_auto_search`: with no words, log
and return without any client call (`none`); otherwise issue one bulk call
whose documents keep the order and multiplicity of `words`. -/
def index_words_to_auto_search (words : List WordRecord) : Option (List BulkDoc) :=
  if words.isEmpty then none
  else
    some (words.map (fun w => BulkDoc.mk w.word w.word w.choseong w.source_sentence))

/-- `OpenSearchWordIndexer.process_words_from_source_index`: run the
extraction; on an exception, log and re-raise; with a non-empty word list,
bulk-index it; otherwise log that there is nothing to do. The result is the
bulk write issued to the target, or `none` for the no-op. -/
def process_words_from_source_index (analyzer : Analyzer)
    (first_page : Except Unit (List Doc)) (scrolls : List (Except Unit (List Doc)))
    (sentence_fields : List String) (pos_filter : Option (List String)) :
    Except Unit (Option (List BulkDoc)) :=
  match extract_words_from_index analyzer first_page scrolls sentence_fields pos_filter with
  | Except.error e => Except.error e
  | Except.ok words =>
    if words.isEmpty then Except.ok none
    else Except.ok (index_words_to_auto_search words)

/-- An analyzer that tags the whole sentence as one noun; used to build
concrete pipeline runs. -/
def nounAnalyzer : Analyzer := fun s => Except.ok [(s, "Noun")]

/-- An analyzer whose call always raises. -/
def failingAnalyzer : Analyzer := fun _ => Except.error ()

/-- Reference definition of the choseong extraction, following the words of
the specification: empty input gives empty output; an input consisting
entirely of alphabetic ASCII characters is returned lower-cased; otherwise
each character in the inclusive range U+AC00 to U+D7A3 is replaced by the
symbol at index (codepoint - 0xAC00) div 588 of the fixed 19-symbol list
and every other character is copied through unchanged. -/
def extract_choseong_spec (text : String) : String :=
  if text = "" then ""
  else if text.data ≠ [] ∧ text.data.all isAsciiLetter then pyLower text
  else
    String.mk (text.data.map (fun c =>
      if 0xAC00 ≤ c.toNat ∧ c.toNat ≤ 0xD7A3 then
        choseong_list.getD ((c.toNat - 0xAC00) / 588) c
      else c))

/-- The simpler validity predicate of the refinement claim: length at least
two and at least one Hangul syllable present. -/
def is_valid_korean_word_simple (word : String) : Bool :=
  2 ≤ word.length && word.data.any isHangulSyllable

/-- The pages the while loop of `extract_words_from_index` actually
processes: the first page and every page delivered by a successful scroll
call, stopping at the first empty page, at the first scroll failure, or at
the end of the stream. Used to characterise the aggregation step. -/
def fetched_pages (hits : List Doc) (scrolls : List (Except Unit (List Doc))) :
    List (List Doc) :=
  if hits.isEmpty then []
  else
    match scrolls with
    | [] => [hits]
    | Except.error _ :: _ => [hits]
    | Except.ok hits2 :: rest => hits :: fetched_pages hits2 rest
termination_by scrolls.length
decreasing_by simp

example : extract_choseong "안녕" = "ㅇㄴ" := by decide
example : extract_choseong "abc" = "abc" := by decide
example : extract_choseong "" = "" := by decide
example : is_valid_korean_word "안녕" = true := by decide
example : is_valid_korean_word "가" = false := by decide
example : is_valid_korean_word "123" = false := by decide
example : is_valid_english_word "hello" = true := by decide
example : is_valid_english_word "a" = false := by decide
example : is_valid_english_word "안녕" = true := by decide

lemma toNat_ofNat_valid (n : Nat) (h : n.isValidChar) : (Char.ofNat n).toNat = n := by
  rw [Char.ofNat, dif_pos h]
  rfl

lemma pyLowerChar_toNat_of_upper (c : Char) (h : isAsciiUpper c = true) :
    (pyLowerChar c).toNat = c.toNat + 32 := by
  have hb : (65 ≤ c.toNat ∧ c.toNat ≤ 90) := by simpa [isAsciiUpper] using h
  rw [pyLowerChar, if_pos h]
  exact toNat_ofNat_valid _ (Or.inl (by omega))

lemma pyLowerChar_of_not_upper (c : Char) (h : isAsciiUpper c = false) :
    pyLowerChar c = c := by
  rw [pyLowerChar, if_neg]
  simp [h]

lemma pyLowerChar_isLower (c : Char) (h : isAsciiLetter c = true) :
    isAsciiLower (pyLowerChar c) = true := by
  rcases Bool.or_eq_true_iff.mp (by simpa [isAsciiLetter] using h) with hu | hl
  · have := pyLowerChar_toNat_of_upper c hu
    have hb : (65 ≤ c.toNat ∧ c.toNat ≤ 90) := by simpa [isAsciiUpper] using hu
    simp only [isAsciiLower, this]
    simp
    omega
  · have hnu : isAsciiUpper c = false := by
      have hb : (97 ≤ c.toNat ∧ c.toNat ≤ 122) := by simpa [isAsciiLower] using hl
      simp [isAsciiUpper]
      omega
    rw [pyLowerChar_of_not_upper c hnu]
    exact hl

lemma pyLowerChar_fix_of_lower (c : Char) (h : isAsciiLower c = true) :
    pyLowerChar c = c := by
  apply pyLowerChar_of_not_upper
  have hb : (97 ≤ c.toNat ∧ c.toNat ≤ 122) := by simpa [isAsciiLower] using h
  simp [isAsciiUpper]
  omega

lemma isAsciiLetter_of_lower (c : Char) (h : isAsciiLower c = true) :
    isAsciiLetter c = true := by
  simp [isAsciiLetter, h]

lemma pyLower_length (s : String) : (pyLower s).length = s.length := by
  show (s.data.map pyLowerChar).length = s.data.length
  exact List.length_map s.data pyLowerChar

lemma all_non_korean_false_of_any (w : String)
    (h : w.data.any isHangulSyllable = true) :
    w.data.all (fun c => !(isHangulSyllable c || isAsciiLetter c)) = false := by
  rcases List.any_eq_true.mp h with ⟨c, hc, hs⟩
  exact List.all_eq_false.mpr ⟨c, hc, by simp [hs]⟩

lemma string_eq_empty_iff (w : String) : w = "" ↔ w.data = [] := by
  constructor
  · intro h
    rw [h]
  · intro h
    apply String.ext
    rw [h]

lemma valid_korean_true_iff (w : String) :
    is_valid_korean_word w = true ↔
      2 ≤ w.length ∧ w.data.any isHangulSyllable = true := by
  unfold is_valid_korean_word
  split_ifs with h1 h2 h3
  · simp only [Bool.or_eq_true, decide_eq_true_eq] at h1
    simp only [false_iff, not_and]
    intro hl
    rcases h1 with he | hl2
    · rw [he] at hl
      exact absurd hl (by decide)
    · omega
  · simp only [Bool.not_eq_true', List.any_eq_false] at h2
    simp only [false_iff, not_and]
    intro _ hany
    rcases List.any_eq_true.mp hany with ⟨c, hc, hs⟩
    exact absurd hs (by simp [h2 c hc])
  · simp only [Bool.not_eq_true', Bool.not_eq_true] at h2
    have hany : w.data.any isHangulSyllable = true := by simpa using h2
    have := all_non_korean_false_of_any w hany
    rw [this] at h3
    cases h3
  · simp only [Bool.or_eq_true, decide_eq_true_eq, not_or] at h1
    have hany : w.data.any isHangulSyllable = true := by simpa using h2
    simp only [true_iff]
    exact ⟨by omega, hany⟩

lemma valid_korean_eq_simple (w : String) :
    is_valid_korean_word w = is_valid_korean_word_simple w := by
  have h := valid_korean_true_iff w
  unfold is_valid_korean_word_simple
  cases hv : is_valid_korean_word w
  · rw [hv] at h
    symm
    cases hd : decide (2 ≤ w.length)
    · simp
    · simp only [Bool.true_and]
      by_contra hcon
      exact absurd (h.mpr ⟨of_decide_eq_true hd, by simp_all⟩) (by simp)
  · rw [hv] at h
    rcases h.mp rfl with ⟨hl, ha⟩
    simp [hl, ha]

lemma choseong_index_lt (n : Nat) (h : 44032 ≤ n ∧ n ≤ 55203) :
    (n - 44032) / 588 < choseong_list.length := by
  have h1 : n - 44032 ≤ 11171 := by omega
  have h2 : (n - 44032) / 588 ≤ 11171 / 588 := Nat.div_le_div_right h1
  have h3 : (11171 : Nat) / 588 = 18 := by norm_num
  simp only [choseong_list, List.length]
  omega

lemma choseongOfChar_mem (c : Char) (h : isHangulSyllable c = true) :
    choseongOfChar c ∈ choseong_list := by
  have hb : 0xAC00 ≤ c.toNat ∧ c.toNat ≤ 0xD7A3 := by
    simpa [isHangulSyllable] using h
  have hlt := choseong_index_lt c.toNat hb
  rw [choseongOfChar, if_pos hb, if_pos hb, List.getD_eq_getElem _ _ hlt]
  exact List.getElem_mem hlt

lemma choseong_list_not_syllable :
    ∀ ch ∈ choseong_list, isHangulSyllable ch = false := by decide

lemma choseong_list_not_ascii :
    ∀ ch ∈ choseong_list, (isAsciiLetter ch = false ∧ ¬ ch.toNat ≤ 127) := by decide

lemma choseongOfChar_of_not_syllable (c : Char) (h : isHangulSyllable c = false) :
    choseongOfChar c = c := by
  rw [choseongOfChar, if_neg]
  intro hb
  rw [isHangulSyllable] at h
  simp only [decide_eq_false_iff_not, Decidable.not_and_iff_or_not] at h
  omega

lemma choseongOfChar_idem (c : Char) :
    choseongOfChar (choseongOfChar c) = choseongOfChar c := by
  cases hs : isHangulSyllable c
  · rw [choseongOfChar_of_not_syllable c hs, choseongOfChar_of_not_syllable c hs]
  · exact choseongOfChar_of_not_syllable _
      (choseong_list_not_syllable _ (choseongOfChar_mem c hs))

lemma bool_and_true {a b : Bool} (h : (a && b) = true) : a = true ∧ b = true := by
  simp_all

lemma alpha_ascii_char (c : Char) :
    (pyIsAlphaChar c && decide (c.toNat ≤ 127)) = isAsciiLetter c := by
  rw [Bool.eq_iff_iff]
  unfold pyIsAlphaChar isAsciiLetter isAsciiUpper isAsciiLower
  simp only [Bool.and_eq_true, Bool.or_eq_true, decide_eq_true_eq]
  omega

lemma alpha_ascii_str (s : String) :
    (pyStrIsAlpha s && pyStrIsAscii s)
      = (!s.data.isEmpty && s.data.all isAsciiLetter) := by
  unfold pyStrIsAlpha pyStrIsAscii
  rw [Bool.eq_iff_iff]
  simp only [Bool.and_eq_true, List.all_eq_true]
  constructor
  · rintro ⟨⟨hne, hall⟩, hascii⟩
    refine ⟨hne, fun c hc => ?_⟩
    rw [← alpha_ascii_char c]
    simp [hall c hc, hascii c hc]
  · rintro ⟨hne, hall⟩
    have key : ∀ c ∈ s.data, (pyIsAlphaChar c && decide (c.toNat ≤ 127)) = true := by
      intro c hc
      rw [alpha_ascii_char c]
      exact hall c hc
    refine ⟨⟨hne, fun c hc => (bool_and_true (key c hc)).1⟩, fun c hc => ?_⟩
    simpa using (bool_and_true (key c hc)).2

lemma choseongOfChar_eq_spec (c : Char) :
    choseongOfChar c =
      (if 0xAC00 ≤ c.toNat ∧ c.toNat ≤ 0xD7A3 then
        choseong_list.getD ((c.toNat - 0xAC00) / 588) c
      else c) := by
  unfold choseongOfChar
  split_ifs <;> rfl

lemma extract_choseong_of_alpha (s : String) (h0 : ¬ s = "")
    (hA : (pyStrIsAlpha s && pyStrIsAscii s) = true) :
    extract_choseong s = pyLower s := by
  rw [extract_choseong, if_neg h0, if_pos hA]

lemma extract_choseong_of_other (s : String) (h0 : ¬ s = "")
    (hA : (pyStrIsAlpha s && pyStrIsAscii s) = false) :
    extract_choseong s = String.mk (s.data.map choseongOfChar) := by
  rw [extract_choseong, if_neg h0, if_neg (by simp [hA])]

lemma extract_choseong_eq_spec (s : String) :
    extract_choseong s = extract_choseong_spec s := by
  unfold extract_choseong extract_choseong_spec
  by_cases h0 : s = ""
  · simp [h0]
  · rw [if_neg h0, if_neg h0]
    by_cases hc : (!s.data.isEmpty && s.data.all isAsciiLetter) = true
    · rw [if_pos (by rw [alpha_ascii_str]; exact hc), if_pos ?_]
      obtain ⟨h1, h2⟩ := bool_and_true hc
      exact ⟨by simpa using h1, by simpa using h2⟩
    · rw [if_neg (by rw [alpha_ascii_str]; simpa using hc), if_neg ?_]
      · have hmap : ∀ c, choseongOfChar c =
            (if 0xAC00 ≤ c.toNat ∧ c.toNat ≤ 0xD7A3 then
              choseong_list.getD ((c.toNat - 0xAC00) / 588) c
            else c) := choseongOfChar_eq_spec
        rw [funext hmap]
      · intro hcon
        apply hc
        obtain ⟨h1, h2⟩ := hcon
        simp only [Bool.and_eq_true]
        exact ⟨by simpa using h1, by simpa using h2⟩

lemma pyIsAlphaChar_of_syllable (c : Char) (h : isHangulSyllable c = true) :
    pyIsAlphaChar c = true := by
  rw [isHangulSyllable] at h
  simp only [decide_eq_true_eq] at h
  unfold pyIsAlphaChar
  simp only [Bool.or_eq_true, Bool.and_eq_true, decide_eq_true_eq]
  omega


lemma pyLower_preserves_cond (s : String)
    (hA : (pyStrIsAlpha s && pyStrIsAscii s) = true) :
    (pyStrIsAlpha (pyLower s) && pyStrIsAscii (pyLower s)) = true
      ∧ pyLower (pyLower s) = pyLower s := by
  rw [alpha_ascii_str] at hA
  obtain ⟨hne, hall⟩ := bool_and_true hA
  have hlow : ∀ c ∈ (pyLower s).data, isAsciiLower c = true := by
    intro c hc
    rcases List.mem_map.mp hc with ⟨d, hd, rfl⟩
    exact pyLowerChar_isLower d (List.all_eq_true.mp hall d hd)
  have hfix : ∀ c ∈ (pyLower s).data, pyLowerChar c = c :=
    fun c hc => pyLowerChar_fix_of_lower c (hlow c hc)
  refine ⟨?_, ?_⟩
  · rw [alpha_ascii_str]
    simp only [Bool.and_eq_true]
    refine ⟨?_, ?_⟩
    · have h1 : s.data ≠ [] := by
        intro hnil
        rw [hnil] at hne
        simp at hne
      have h2 : (pyLower s).data ≠ [] := by
        show s.data.map pyLowerChar ≠ []
        simpa using h1
      simpa using h2
    · exact List.all_eq_true.mpr (fun c hc => isAsciiLetter_of_lower c (hlow c hc))
  · have hmapeq : (pyLower s).data.map pyLowerChar = (pyLower s).data := by
      calc (pyLower s).data.map pyLowerChar
          = (pyLower s).data.map id := List.map_congr_left hfix
        _ = (pyLower s).data := List.map_id _
    show String.mk ((pyLower s).data.map pyLowerChar) = pyLower s
    rw [hmapeq]

lemma choseong_branch_cond_false (s : String) (h0 : ¬ s = "")
    (hA : (pyStrIsAlpha s && pyStrIsAscii s) = false) :
    (pyStrIsAlpha (String.mk (s.data.map choseongOfChar))
      && pyStrIsAscii (String.mk (s.data.map choseongOfChar))) = false := by
  have hdata : s.data ≠ [] := fun hnil => h0 ((string_eq_empty_iff s).mpr hnil)
  rcases Bool.and_eq_false_iff.mp hA with h | h
  · unfold pyStrIsAlpha at h
    rcases Bool.and_eq_false_iff.mp h with h1 | h2
    · have : s.data = [] := by
        rw [← List.isEmpty_iff]
        simpa using h1
      exact absurd this hdata
    · rcases List.all_eq_false.mp h2 with ⟨c, hc, hnc⟩
      have hcs : isHangulSyllable c = false := by
        cases hcs2 : isHangulSyllable c
        · rfl
        · exact absurd (pyIsAlphaChar_of_syllable c hcs2) (by simp_all)
      have hmem : c ∈ s.data.map choseongOfChar := by
        rw [← choseongOfChar_of_not_syllable c hcs]
        exact List.mem_map_of_mem _ hc
      apply Bool.and_eq_false_iff.mpr
      left
      unfold pyStrIsAlpha
      apply Bool.and_eq_false_iff.mpr
      right
      exact List.all_eq_false.mpr ⟨c, hmem, hnc⟩
  · rcases List.all_eq_false.mp h with ⟨c, hc, hnc⟩
    apply Bool.and_eq_false_iff.mpr
    right
    unfold pyStrIsAscii
    apply List.all_eq_false.mpr
    cases hcs : isHangulSyllable c
    · refine ⟨c, ?_, hnc⟩
      rw [← choseongOfChar_of_not_syllable c hcs]
      exact List.mem_map_of_mem _ hc
    · refine ⟨choseongOfChar c, List.mem_map_of_mem _ hc, ?_⟩
      have hmem2 := choseongOfChar_mem c hcs
      have hna := (choseong_list_not_ascii _ hmem2).2
      simpa using hna

lemma extract_choseong_idem (s : String) :
    extract_choseong (extract_choseong s) = extract_choseong s := by
  by_cases h0 : s = ""
  · rw [h0]
    rfl
  · by_cases hA : (pyStrIsAlpha s && pyStrIsAscii s) = true
    · rw [extract_choseong_of_alpha s h0 hA]
      obtain ⟨hA2, hidem⟩ := pyLower_preserves_cond s hA
      have h0b : ¬ pyLower s = "" := by
        intro hcon
        apply h0
        rw [string_eq_empty_iff] at hcon ⊢
        have hd : s.data.map pyLowerChar = [] := hcon
        simpa using hd
      rw [extract_choseong_of_alpha _ h0b hA2, hidem]
    · have hA2 : (pyStrIsAlpha s && pyStrIsAscii s) = false := by simp_all
      rw [extract_choseong_of_other s h0 hA2]
      have h0t : ¬ String.mk (s.data.map choseongOfChar) = "" := by
        rw [string_eq_empty_iff]
        show ¬ s.data.map choseongOfChar = []
        intro hcon
        exact h0 ((string_eq_empty_iff s).mpr (by simpa using hcon))
      have hAt := choseong_branch_cond_false s h0 hA2
      rw [extract_choseong_of_other _ h0t hAt]
      show String.mk ((s.data.map choseongOfChar).map choseongOfChar)
        = String.mk (s.data.map choseongOfChar)
      rw [List.map_map]
      congr 1
      exact List.map_congr_left (fun a _ => choseongOfChar_idem a)

lemma extract_choseong_singleton (c : Char) (h : isHangulSyllable c = true) :
    extract_choseong (String.mk [c]) = String.mk [choseongOfChar c] := by
  have h0 : ¬ String.mk [c] = "" := by
    rw [string_eq_empty_iff]
    simp
  have hA : (pyStrIsAlpha (String.mk [c]) && pyStrIsAscii (String.mk [c])) = false := by
    apply Bool.and_eq_false_iff.mpr
    right
    rw [isHangulSyllable] at h
    simp only [decide_eq_true_eq] at h
    unfold pyStrIsAscii
    simp only [List.all_eq_false]
    refine ⟨c, by simp [String.mk], ?_⟩
    simp only [decide_eq_true_eq]
    omega
  rw [extract_choseong_of_other _ h0 hA]
  rfl

lemma english_runs_mem_aux (n : Nat) : ∀ (prev : Option Char) (cs : List Char), cs.length ≤ n →
    ∀ w ∈ english_runs prev cs, w.all isAsciiLetter = true ∧ 2 ≤ w.length := by
  induction n with
  | zero =>
    intro prev cs hlen w hw
    have hnil : cs = [] := List.length_eq_zero.mp (Nat.le_zero.mp hlen)
    subst hnil
    simp [english_runs] at hw
  | succ n ih =>
    intro prev cs hlen w hw
    cases cs with
    | nil => simp [english_runs] at hw
    | cons c rest =>
      rw [english_runs.eq_def] at hw
      by_cases h : isAsciiLetter c = true
      · simp only [dif_pos h] at hw
        have htl : (List.dropWhile isAsciiLetter (c :: rest)).length ≤ n := by
          rw [List.dropWhile_cons_of_pos h]
          have := dropWhile_length_le isAsciiLetter rest
          simp only [List.length_cons] at hlen
          omega
        split at hw
        · rcases List.mem_cons.mp hw with rfl | hmem
          · rename_i hc
            refine ⟨List.all_eq_true.mpr (fun x hx => List.mem_takeWhile_imp hx), ?_⟩
            have h2 := (bool_and_true (bool_and_true hc).1).1
            simpa using h2
          · exact ih _ _ htl w hmem
        · exact ih _ _ htl w hw
      · simp only [dif_neg h] at hw
        have hr : rest.length ≤ n := by
          simp only [List.length_cons] at hlen
          omega
        exact ih _ _ hr w hw

lemma english_runs_mem (prev : Option Char) (cs : List Char) :
    ∀ w ∈ english_runs prev cs, w.all isAsciiLetter = true ∧ 2 ≤ w.length :=
  english_runs_mem_aux cs.length prev cs (Nat.le_refl _)

lemma valid_english_true_iff (w : String) :
    is_valid_english_word w = true ↔
      2 ≤ w.length ∧ w.length ≤ 50 ∧ pyStrIsAlpha w = true := by
  unfold is_valid_english_word
  split_ifs with h1 h2 h3
  · simp only [Bool.or_eq_true, decide_eq_true_eq] at h1
    simp only [false_iff, not_and]
    intro hl
    rcases h1 with he | hl2
    · rw [he] at hl
      exact absurd hl (by decide)
    · omega
  · simp only [Bool.not_eq_true'] at h2
    simp only [false_iff, not_and]
    intro _ _
    simp [h2]
  · simp only [false_iff, not_and]
    intro _ hcon
    omega
  · simp only [Bool.or_eq_true, decide_eq_true_eq, not_or] at h1
    simp only [Bool.not_eq_true', Bool.not_eq_false] at h2
    simp only [true_iff]
    exact ⟨by omega, by omega, h2⟩

lemma extract_english_mem (s w : String) (hw : w ∈ extract_english_words s) :
    2 ≤ w.length ∧ w.length ≤ 50 ∧ w.data.all isAsciiLetter = true := by
  unfold extract_english_words at hw
  rcases List.mem_filterMap.mp hw with ⟨run, hrun, heq⟩
  have hrunspec := english_runs_mem none s.data run hrun
  simp only [] at heq
  by_cases hv : is_valid_english_word (String.mk run) = true
  · rw [if_pos hv] at heq
    have hwq : pyLower (String.mk run) = w := by simpa using heq
    subst hwq
    have hlen : (pyLower (String.mk run)).length = run.length := by
      rw [pyLower_length]
      rfl
    have hval := (valid_english_true_iff (String.mk run)).mp hv
    have hmklen : (String.mk run).length = run.length := rfl
    rw [hmklen] at hval
    refine ⟨by omega, by omega, ?_⟩
    apply List.all_eq_true.mpr
    intro c hc
    rcases List.mem_map.mp hc with ⟨d, hd, rfl⟩
    exact isAsciiLetter_of_lower _
      (pyLowerChar_isLower d (List.all_eq_true.mp hrunspec.1 d hd))
  · rw [if_neg hv] at heq
    cases heq

lemma extract_korean_mem (morphs : Except Unit (List (String × String)))
    (pf : Option (List String)) (w : String)
    (hw : w ∈ extract_korean_words morphs pf) :
    is_valid_korean_word w = true := by
  unfold extract_korean_words at hw
  cases morphs with
  | error e => simp at hw
  | ok ms =>
    rcases List.mem_filterMap.mp hw with ⟨p, hp, heq⟩
    by_cases hc : (posOk pf p.2 && is_valid_korean_word p.1) = true
    · rw [if_pos hc] at heq
      have : p.1 = w := by simpa using heq
      subst this
      exact (bool_and_true hc).2
    · rw [if_neg hc] at heq
      cases heq

lemma sentence_words_mem (a : Analyzer) (s : String)
    (pf : Option (List String)) (w : String)
    (hw : w ∈ extract_words_from_sentence a s pf) :
    2 ≤ w.length ∧ (w.data.any isHangulSyllable = true
      ∨ (w.data.all isAsciiLetter = true ∧ 2 ≤ w.length ∧ w.length ≤ 50)) := by
  unfold extract_words_from_sentence at hw
  split at hw
  · simp at hw
  · have hw2 := List.mem_dedup.mp hw
    rcases List.mem_append.mp hw2 with he | hk
    · obtain ⟨h1, h2, h3⟩ := extract_english_mem s w he
      exact ⟨h1, Or.inr ⟨h3, h1, h2⟩⟩
    · have hk2 := (valid_korean_true_iff w).mp (extract_korean_mem _ _ _ hk)
      exact ⟨hk2.1, Or.inl hk2.2⟩

lemma docRecords_mem (a : Analyzer) (pf : Option (List String))
    (fields : List String) (doc : Doc) (r : WordRecord)
    (hr : r ∈ docRecords a pf fields doc) :
    ∃ s, r.word ∈ extract_words_from_sentence a s pf
      ∧ r.choseong = extract_choseong r.word ∧ r.source_sentence = none := by
  unfold docRecords at hr
  rcases List.mem_flatMap.mp hr with ⟨field, hfield, hmem⟩
  cases hl : List.lookup field doc with
  | none =>
    rw [hl] at hmem
    simp at hmem
  | some sentence =>
    rw [hl] at hmem
    dsimp only at hmem
    by_cases hs : sentence = ""
    · rw [if_pos hs] at hmem
      simp at hmem
    · rw [if_neg hs] at hmem
      rcases List.mem_map.mp hmem with ⟨w, hwmem, rfl⟩
      exact ⟨sentence, hwmem, rfl, rfl⟩

lemma collect_pages_mem (a : Analyzer) (pf : Option (List String))
    (fields : List String) :
    ∀ (scrolls : List (Except Unit (List Doc))) (hits : List Doc) (r : WordRecord),
      r ∈ collect_pages a pf fields hits scrolls →
      ∃ doc, r ∈ docRecords a pf fields doc := by
  intro scrolls
  induction scrolls with
  | nil =>
    intro hits r hr
    rw [collect_pages] at hr
    split at hr
    · simp at hr
    · rcases List.mem_flatMap.mp hr with ⟨doc, hdoc, hmem⟩
      exact ⟨doc, hmem⟩
  | cons s rest ih =>
    intro hits r hr
    rw [collect_pages] at hr
    split at hr
    · simp at hr
    · cases s with
      | error e =>
        rcases List.mem_flatMap.mp hr with ⟨doc, hdoc, hmem⟩
        exact ⟨doc, hmem⟩
      | ok hits2 =>
        rcases List.mem_append.mp hr with hl | hrec
        · rcases List.mem_flatMap.mp hl with ⟨doc, hdoc, hmem⟩
          exact ⟨doc, hmem⟩
        · exact ih hits2 r hrec

lemma collect_pages_append_error (a : Analyzer) (pf : Option (List String))
    (fields : List String) :
    ∀ (before after : List (Except Unit (List Doc))) (hits : List Doc),
      collect_pages a pf fields hits (before ++ Except.error () :: after)
        = collect_pages a pf fields hits before := by
  intro before
  induction before with
  | nil =>
    intro after hits
    rw [collect_pages, collect_pages]
    by_cases h : hits.isEmpty <;> simp [h]
  | cons s rest ih =>
    intro after hits
    rw [List.cons_append, collect_pages, collect_pages]
    by_cases h : hits.isEmpty
    · simp [h]
    · simp only [h, if_false]
      cases s with
      | error e => rfl
      | ok hits2 =>
        show hits.flatMap (docRecords a pf fields)
            ++ collect_pages a pf fields hits2 (rest ++ Except.error () :: after)
          = hits.flatMap (docRecords a pf fields) ++ collect_pages a pf fields hits2 rest
        rw [ih after hits2]

lemma collect_pages_eq_fetched (a : Analyzer) (pf : Option (List String))
    (fields : List String) :
    ∀ (scrolls : List (Except Unit (List Doc))) (hits : List Doc),
      collect_pages a pf fields hits scrolls
        = (fetched_pages hits scrolls).flatMap
            (fun page => page.flatMap (docRecords a pf fields)) := by
  intro scrolls
  induction scrolls with
  | nil =>
    intro hits
    rw [collect_pages, fetched_pages.eq_def]
    by_cases h : hits.isEmpty <;> simp [h]
  | cons s rest ih =>
    intro hits
    rw [collect_pages, fetched_pages.eq_def]
    by_cases h : hits.isEmpty
    · simp [h]
    · simp only [h, if_false]
      cases s with
      | error e =>
        show hits.flatMap (docRecords a pf fields)
          = [hits].flatMap (fun page => page.flatMap (docRecords a pf fields))
        simp
      | ok hits2 =>
        show hits.flatMap (docRecords a pf fields) ++ collect_pages a pf fields hits2 rest
          = (hits :: fetched_pages hits2 rest).flatMap
              (fun page => page.flatMap (docRecords a pf fields))
        rw [ih hits2]
        simp

/-- C1: the claim that the aggregation step keeps only the first-seen
WordRecord per word is false: `extract_words_from_index` appends one record
per extracted occurrence with no corpus-level deduplication, so with two
source documents both containing the sentence 안녕 the collection handed to
the bulk-write step holds the word 안녕 twice. -/
theorem C1_counterexample :
    extract_words_from_index nounAnalyzer
        (Except.ok [[("title", "안녕")], [("title", "안녕")]]) [] ["title"] none
      = Except.ok [WordRecord.mk "안녕" "ㅇㄴ" none, WordRecord.mk "안녕" "ㅇㄴ" none]
    ∧ process_words_from_source_index nounAnalyzer
        (Except.ok [[("title", "안녕")], [("title", "안녕")]]) [] ["title"] none
      = Except.ok (some
          [BulkDoc.mk "안녕" "안녕" "ㅇㄴ" none, BulkDoc.mk "안녕" "안녕" "ㅇㄴ" none])
    ∧ (List.map WordRecord.word
        [WordRecord.mk "안녕" "ㅇㄴ" none, WordRecord.mk "안녕" "ㅇㄴ" none]).count "안녕"
      = 2 := by
  refine ⟨?_, ?_, by decide⟩ <;>
    simp +decide [extract_words_from_index, process_words_from_source_index,
      index_words_to_auto_search, collect_pages, docRecords,
      extract_words_from_sentence, extract_english_words, english_runs,
      extract_korean_words, nounAnalyzer, posOk]

/-- C1 amended: the aggregation step performs no deduplication at all: for
every run whose initial fetch succeeds, the collection handed to the
bulk-write step is exactly the concatenation, over the fetched pages and
their documents in order, of every extracted WordRecord, duplicates
included (deduplication happens only at the target, where each bulk
document is keyed by its word, so the last occurrence wins there). -/
theorem C1_amended_no_dedup (a : Analyzer) (hits : List Doc)
    (scrolls : List (Except Unit (List Doc))) (fields : List String)
    (pf : Option (List String)) :
    extract_words_from_index a (Except.ok hits) scrolls fields pf
      = Except.ok ((fetched_pages hits scrolls).flatMap
          (fun page => page.flatMap (docRecords a pf fields))) := by
  show Except.ok (collect_pages a pf fields hits scrolls) = _
  rw [collect_pages_eq_fetched]

/-- C2: `extract_choseong` is total and agrees with the reference
definition of the specification on every string: empty input gives the
empty string, an all-ASCII-alphabetic input is lower-cased, and otherwise
each Hangul syllable is replaced by the initial consonant at index
(codepoint - 0xAC00) div 588 of the 19-symbol list while every other
character passes through; in particular the three quoted examples hold. -/
theorem C2_extract_choseong_matches_spec :
    (∀ s, extract_choseong s = extract_choseong_spec s)
    ∧ extract_choseong "" = ""
    ∧ extract_choseong "abc" = "abc"
    ∧ extract_choseong "안녕" = "ㅇㄴ" :=
  ⟨extract_choseong_eq_spec, by decide, by decide, by decide⟩

/-- C3: the claim that fetch or analyzer-call errors abort the pipeline
with no partial results written is false: a scroll (subsequent page) fetch
error breaks the paging loop and the partial corpus is still written, and
an analyzer-call error is caught inside the per-sentence extraction, which
still contributes its English words to a successful write. -/
theorem C3_counterexample :
    process_words_from_source_index nounAnalyzer
        (Except.ok [[("title", "안녕")]]) [Except.error ()] ["title"] none
      = Except.ok (some [BulkDoc.mk "안녕" "안녕" "ㅇㄴ" none])
    ∧ process_words_from_source_index failingAnalyzer
        (Except.ok [[("title", "hello 안녕")]]) [] ["title"] none
      = Except.ok (some [BulkDoc.mk "hello" "hello" "hello" none]) := by
  constructor <;>
    simp +decide [extract_words_from_index, process_words_from_source_index,
      index_words_to_auto_search, collect_pages, docRecords,
      extract_words_from_sentence, extract_english_words, english_runs,
      extract_korean_words, nounAnalyzer, failingAnalyzer, posOk]

/-- C3 amended: only an error of the initial fetch aborts the pipeline
(it propagates and nothing is written); an analyzer-call error is caught
per sentence, and the sentence contributes exactly its deduplicated
English words instead of propagating the failure. -/
theorem C3_amended_failure_policy :
    (∀ (a : Analyzer) (scrolls : List (Except Unit (List Doc)))
        (fields : List String) (pf : Option (List String)),
      process_words_from_source_index a (Except.error ()) scrolls fields pf
        = Except.error ())
    ∧ (∀ (s : String) (pf : Option (List String)),
        extract_words_from_sentence failingAnalyzer s pf
          = if s.data.all pyIsSpaceChar then [] else (extract_english_words s).dedup) := by
  constructor
  · intro a scrolls fields pf
    rfl
  · intro s pf
    unfold extract_words_from_sentence
    by_cases h : s.data.all pyIsSpaceChar
    · rw [if_pos h, if_pos h]
    · rw [if_neg h, if_neg h]
      show ((extract_english_words s)
        ++ extract_korean_words (Except.error ()) pf).dedup = _
      rw [extract_korean_words, List.append_nil]

/-- C4: every WordRecord emitted by the extraction step has a word of
length at least two that either contains a Hangul syllable or is a pure
ASCII-alphabetic token of length 2 to 50, and a blank (empty or
whitespace-only) sentence emits no record at all. -/
theorem C4_word_record_invariant :
    (∀ (a : Analyzer) (fp : Except Unit (List Doc))
        (scrolls : List (Except Unit (List Doc))) (fields : List String)
        (pf : Option (List String)) (ws : List WordRecord) (r : WordRecord),
      extract_words_from_index a fp scrolls fields pf = Except.ok ws → r ∈ ws →
        2 ≤ r.word.length
          ∧ (r.word.data.any isHangulSyllable = true
            ∨ (r.word.data.all isAsciiLetter = true
                ∧ 2 ≤ r.word.length ∧ r.word.length ≤ 50)))
    ∧ (∀ (a : Analyzer) (pf : Option (List String)) (s : String),
        s.data.all pyIsSpaceChar = true →
          extract_words_from_sentence a s pf = []) := by
  constructor
  · intro a fp scrolls fields pf ws r hok hr
    cases fp with
    | error e => cases hok
    | ok hits =>
      have hws : collect_pages a pf fields hits scrolls = ws := Except.ok.inj hok
      rw [← hws] at hr
      rcases collect_pages_mem a pf fields scrolls hits r hr with ⟨doc, hdoc⟩
      rcases docRecords_mem a pf fields doc r hdoc with ⟨s, hsw, _, _⟩
      exact sentence_words_mem a s pf r.word hsw
  · intro a pf s h
    unfold extract_words_from_sentence
    rw [if_pos h]

/-- C4 witness: a concrete run emitting the record for 안녕 satisfies the
invariant, and a whitespace-only sentence emits nothing. -/
theorem C4_witness :
    (2 ≤ (WordRecord.mk "안녕" "ㅇㄴ" none).word.length
      ∧ ((WordRecord.mk "안녕" "ㅇㄴ" none).word.data.any isHangulSyllable = true
        ∨ ((WordRecord.mk "안녕" "ㅇㄴ" none).word.data.all isAsciiLetter = true
            ∧ 2 ≤ (WordRecord.mk "안녕" "ㅇㄴ" none).word.length
            ∧ (WordRecord.mk "안녕" "ㅇㄴ" none).word.length ≤ 50)))
    ∧ extract_words_from_sentence nounAnalyzer " " none = [] :=
  ⟨C4_word_record_invariant.1 nounAnalyzer (Except.ok [[("title", "안녕")]]) []
      ["title"] none [WordRecord.mk "안녕" "ㅇㄴ" none] (WordRecord.mk "안녕" "ㅇㄴ" none)
      (by simp +decide [extract_words_from_index, collect_pages, docRecords,
        extract_words_from_sentence, extract_english_words, english_runs,
        extract_korean_words, nounAnalyzer, posOk])
      (by simp),
    C4_word_record_invariant.2 nounAnalyzer none " " (by decide)⟩

/-- C5: on every character of the Hangul syllable block, `extract_choseong`
returns exactly one of the 19 fixed initial consonant symbols, and
`extract_choseong` is idempotent on every string (determinism is inherent:
it is a pure function of its input). -/
theorem C5_choseong_algebra :
    (∀ c : Char, isHangulSyllable c = true →
      ∃ ch ∈ choseong_list, extract_choseong (String.mk [c]) = String.mk [ch])
    ∧ (∀ s, extract_choseong (extract_choseong s) = extract_choseong s) := by
  constructor
  · intro c h
    exact ⟨choseongOfChar c, choseongOfChar_mem c h, extract_choseong_singleton c h⟩
  · exact extract_choseong_idem

/-- C5 witness: instantiated at the syllable 안. -/
theorem C5_witness :
    ∃ ch ∈ choseong_list, extract_choseong (String.mk ['안']) = String.mk [ch] :=
  C5_choseong_algebra.1 '안' (by decide)

/-- C6: a failed scroll call while paging terminates the loop early with no
retry and the pipeline continues with the partial corpus: the run is
equivalent to one whose scroll stream stops right before the failure, and
it still returns successfully. -/
theorem C6_scroll_error_partial_corpus (a : Analyzer) (hits : List Doc)
    (before after : List (Except Unit (List Doc))) (fields : List String)
    (pf : Option (List String)) :
    extract_words_from_index a (Except.ok hits)
        (before ++ Except.error () :: after) fields pf
      = extract_words_from_index a (Except.ok hits) before fields pf
    ∧ ∃ ws, extract_words_from_index a (Except.ok hits)
        (before ++ Except.error () :: after) fields pf = Except.ok ws := by
  constructor
  · show Except.ok (collect_pages a pf fields hits (before ++ Except.error () :: after))
      = Except.ok (collect_pages a pf fields hits before)
    rw [collect_pages_append_error]
  · exact ⟨collect_pages a pf fields hits (before ++ Except.error () :: after), rfl⟩

/-- C7: per-sentence word extraction returns a duplicate-free collection, a
blank sentence yields the empty result without error, and a sentence
containing the same valid token twice yields it exactly once. -/
theorem C7_sentence_extraction_set :
    (∀ (a : Analyzer) (s : String) (pf : Option (List String)),
        (extract_words_from_sentence a s pf).Nodup)
    ∧ (∀ (a : Analyzer) (s : String) (pf : Option (List String)),
        s.data.all pyIsSpaceChar = true → extract_words_from_sentence a s pf = [])
    ∧ (extract_words_from_sentence nounAnalyzer "hello hello" none).count "hello" = 1 := by
  refine ⟨?_, ?_, ?_⟩
  · intro a s pf
    unfold extract_words_from_sentence
    split
    · exact List.nodup_nil
    · exact List.nodup_dedup _
  · intro a s pf h
    unfold extract_words_from_sentence
    rw [if_pos h]
  · have h : extract_words_from_sentence nounAnalyzer "hello hello" none = ["hello"] := by
      simp +decide [extract_words_from_sentence, extract_english_words, english_runs,
        extract_korean_words, nounAnalyzer, posOk]
    rw [h]
    decide

/-- C7 witness: instantiated at a tab-and-space sentence. -/
theorem C7_witness :
    ("\t ".data.all pyIsSpaceChar = true)
      ∧ extract_words_from_sentence nounAnalyzer "\t " none = [] :=
  ⟨by decide, C7_sentence_extraction_set.2.1 nounAnalyzer "\t " none (by decide)⟩

/-- C8: an empty aggregated word list makes the pipeline skip the write and
report a no-op, in particular for an empty source collection, and the bulk
indexer issues no call for an empty list. -/
theorem C8_empty_aggregate_noop :
    (∀ (a : Analyzer) (fp : Except Unit (List Doc))
        (scrolls : List (Except Unit (List Doc))) (fields : List String)
        (pf : Option (List String)),
      extract_words_from_index a fp scrolls fields pf = Except.ok [] →
        process_words_from_source_index a fp scrolls fields pf = Except.ok none)
    ∧ (∀ (a : Analyzer) (scrolls : List (Except Unit (List Doc)))
        (fields : List String) (pf : Option (List String)),
      process_words_from_source_index a (Except.ok []) scrolls fields pf
        = Except.ok none)
    ∧ index_words_to_auto_search [] = none := by
  refine ⟨?_, ?_, rfl⟩
  · intro a fp scrolls fields pf h
    unfold process_words_from_source_index
    rw [h]
    rfl
  · intro a scrolls fields pf
    unfold process_words_from_source_index
    have h : extract_words_from_index a (Except.ok []) scrolls fields pf
        = Except.ok [] := by
      show Except.ok (collect_pages a pf fields [] scrolls) = Except.ok []
      rw [collect_pages]
      simp
    rw [h]
    rfl

/-- C8 witness: a run over an empty first page with a non-empty scroll
stream reports the no-op. -/
theorem C8_witness :
    process_words_from_source_index nounAnalyzer (Except.ok [])
      [Except.ok [[("title", "안녕")]]] ["title"] none = Except.ok none :=
  C8_empty_aggregate_noop.1 nounAnalyzer (Except.ok [])
    [Except.ok [[("title", "안녕")]]] ["title"] none
    (by simp +decide [extract_words_from_index, collect_pages])

/-- C9: the third check of `_is_valid_korean_word` is redundant: the
validator coincides with the simpler predicate that requires length at
least two and at least one Hangul syllable. -/
theorem C9_korean_validator_refinement (w : String) :
    is_valid_korean_word w = is_valid_korean_word_simple w :=
  valid_korean_eq_simple w

/-- C10: `_is_valid_english_word` does not require ASCII letters: the
two-syllable Korean word 안녕 contains no ASCII letter, yet the validator
accepts it, because Python `str.isalpha` accepts every Unicode letter. -/
theorem C10_english_validator_accepts_korean :
    is_valid_english_word "안녕" = true
      ∧ "안녕".data.all (fun c => !isAsciiLetter c) = true := by
  decide
